import Mathlib

/-!
The user collection service of `old_main.go`

A shallow embedding of the request router `UsersHandler` and of the four handlers
`GetUsers`, `CreateUser`, `UpdateUser`, `DeleteUser`, followed by the properties of the
service that are established about them.

Conventions of the embedding.

* The package variable `users` is threaded through explicitly: a handler takes the slice
  it finds and returns the slice it leaves, next to the response writer.
* A Go slice is either the nil slice or a (possibly empty) run of elements; the two are
  different values, and `encoding/json` tells them apart.
* The response writer records the header map, the status code passed to the first
  `WriteHeader`, and the chunks written to the body.
* A JSON document written by `json.Encoder.Encode` is kept as a tree, not as text.
* `json.Decoder.Decode` is library code; the handlers take its outcome on a body as a
  function `Decode`, and every property is shown for all such functions.
* A Go string is a byte string; here it is a Lean string read character by character. The
  prefix "/users/", the signs and the digits are ASCII, and a character outside ASCII is a
  run of bytes none of which is a sign or a digit, so both readings accept the same texts.
* `main` registers the router on the default mux under two patterns; `dispatch` is the
  choice the server and the mux make for a request with these registrations, and `serve`
  the program on one request. No pattern names a host, so the host plays no part.
* Go's `int` is the 64-bit integer type; `strconv.Atoi` is embedded through `ParseInt`
  and `ParseUint` of the standard library for base 10, with the unsigned accumulator
  reduced modulo `2 ^ 64`.
-/

namespace ApiServer

/-! ## Data model -/

/-- The record type `User` (lines 11-14). -/
structure User where
  Name : String
  Age : Int
deriving DecidableEq, Repr

/-- A Go slice as a value: `nil` is the zero value of a slice variable, `of xs` a non-nil
slice holding `xs`. -/
inductive Slice (α : Type) where
  | nil : Slice α
  | of (xs : List α) : Slice α
deriving DecidableEq, Repr

namespace Slice

/-- The elements of a slice, in order. -/
def toList {α : Type} : Slice α → List α
  | nil => []
  | of xs => xs

/-- Go `len(s)`. -/
def len {α : Type} (s : Slice α) : Int := (s.toList.length : Int)

/-- Go `s[:hi]`: slicing the nil slice gives the nil slice, any other slice a non-nil one. -/
def upTo {α : Type} (s : Slice α) (hi : Nat) : Slice α :=
  match s with
  | nil => nil
  | of xs => of (xs.take hi)

/-- Go `s[lo:]`. -/
def since {α : Type} (s : Slice α) (lo : Nat) : Slice α :=
  match s with
  | nil => nil
  | of xs => of (xs.drop lo)

/-- Go `append(s, ys...)`: the nil slice stays nil only when nothing is appended. -/
def append {α : Type} (s : Slice α) (ys : List α) : Slice α :=
  match s, ys with
  | nil, [] => nil
  | nil, y :: ys => of (y :: ys)
  | of xs, ys => of (xs ++ ys)

end Slice

/-- The part of `*http.Request` the handlers read. -/
structure Request where
  Method : String
  Path : String
  Body : String
deriving DecidableEq, Repr

/-- A JSON document as `encoding/json` produces it. -/
inductive JSON where
  | null : JSON
  | num (n : Int) : JSON
  | str (s : String) : JSON
  | arr (items : List JSON) : JSON
  | obj (members : List (String × JSON)) : JSON

/-- One write to the response body: a line of text (`fmt.Fprintln`) or a JSON document
followed by a newline (`Encoder.Encode`). -/
inductive Chunk where
  | text (line : String) : Chunk
  | json (doc : JSON) : Chunk

/-- The state of an `http.ResponseWriter`. -/
structure ResponseWriter where
  header : List (String × String)
  status : Option Nat
  body : List Chunk

namespace ResponseWriter

/-- The writer a handler is started with. -/
def fresh : ResponseWriter := ⟨[], none, []⟩

/-- `w.Header().Del(key)`. -/
def Del (w : ResponseWriter) (key : String) : ResponseWriter :=
  { w with header := w.header.filter (fun kv => kv.1 ≠ key) }

/-- `w.Header().Set(key, value)`: the entry of `key` is replaced. -/
def Set (w : ResponseWriter) (key value : String) : ResponseWriter :=
  { w with header := w.header.filter (fun kv => kv.1 ≠ key) ++ [(key, value)] }

/-- `w.Header().Get(key)`. -/
def Get (w : ResponseWriter) (key : String) : Option String :=
  (w.header.find? (fun kv => kv.1 = key)).map Prod.snd

/-- `w.WriteHeader(code)`: only the first call counts. -/
def WriteHeader (w : ResponseWriter) (code : Nat) : ResponseWriter :=
  match w.status with
  | none => { w with status := some code }
  | some _ => w

/-- `w.Write(...)`: writes the header with status 200 when none was written before. -/
def Write (w : ResponseWriter) (c : Chunk) : ResponseWriter :=
  let w1 := w.WriteHeader 200
  { w1 with body := w1.body ++ [c] }

/-- The status code the client receives: 200 when the handler never wrote one. -/
def code (w : ResponseWriter) : Nat := w.status.getD 200

end ResponseWriter

/-! ## Library functions -/

namespace http

def MethodGet : String := "GET"
def MethodPost : String := "POST"
def MethodPut : String := "PUT"
def MethodDelete : String := "DELETE"
def MethodOptions : String := "OPTIONS"

def StatusCreated : Nat := 201
def StatusBadRequest : Nat := 400
def StatusNotFound : Nat := 404
def StatusMethodNotAllowed : Nat := 405

/-- `http.Error(w, msg, code)`: a plain-text reply with the given status. -/
def Error (w : ResponseWriter) (msg : String) (code : Nat) : ResponseWriter :=
  let w1 := w.Del "Content-Length"
  let w2 := w1.Set "Content-Type" "text/plain; charset=utf-8"
  let w3 := w2.Set "X-Content-Type-Options" "nosniff"
  let w4 := w3.WriteHeader code
  w4.Write (Chunk.text msg)

end http

namespace json

/-- The JSON object of a `User`, fields in declaration order under their tags. -/
def ofUser (u : User) : JSON :=
  JSON.obj [("name", JSON.str u.Name), ("age", JSON.num u.Age)]

/-- The JSON document of a `[]User`: a nil slice is encoded as `null`, any other slice as
an array. -/
def ofUsers : Slice User → JSON
  | Slice.nil => JSON.null
  | Slice.of xs => JSON.arr (xs.map ofUser)

/-- The JSON document of the map literal with keys "status" and "data"; map keys are
written in sorted order. -/
def ofReply (status : String) (data : User) : JSON :=
  JSON.obj [("data", ofUser data), ("status", JSON.str status)]

/-- `json.NewEncoder(w).Encode(v)` for an already converted document. -/
def Encode (w : ResponseWriter) (doc : JSON) : ResponseWriter :=
  w.Write (Chunk.json doc)

end json

namespace strings

/-- `strings.TrimPrefix(s, pre)`. -/
def TrimPrefix (s pre : String) : String :=
  if pre.data.isPrefixOf s.data then ⟨s.data.drop pre.data.length⟩ else s

end strings

namespace strconv

/-- The two errors of the number parsers. -/
inductive NumError where
  | ErrSyntax : NumError
  | ErrRange : NumError
deriving DecidableEq, Repr

/-- The loop of `ParseUint` for base 10 and 64 bits: `n` is the accumulator. -/
def parseUintLoop : List Char → Nat → Nat × Option NumError
  | [], n => (n, none)
  | c :: cs, n =>
    if '0' ≤ c ∧ c ≤ '9' then
      let d := c.toNat - '0'.toNat
      if n ≥ (2 ^ 64 - 1) / 10 + 1 then
        (2 ^ 64 - 1, some NumError.ErrRange)
      else
        let n10 := (n * 10) % 2 ^ 64
        let n1 := (n10 + d) % 2 ^ 64
        if n1 < n10 ∨ n1 > 2 ^ 64 - 1 then
          (2 ^ 64 - 1, some NumError.ErrRange)
        else
          parseUintLoop cs n1
    else
      (0, some NumError.ErrSyntax)

/-- `strconv.ParseUint(s, 10, 0)`. -/
def ParseUint (s : List Char) : Nat × Option NumError :=
  if s = [] then (0, some NumError.ErrSyntax) else parseUintLoop s 0

/-- `strconv.ParseInt(s, 10, 0)`. -/
def ParseInt (s : List Char) : Int × Option NumError :=
  match s with
  | [] => (0, some NumError.ErrSyntax)
  | c :: cs =>
    let neg := decide (c = '-')
    let rest := if c = '+' then cs else if c = '-' then cs else c :: cs
    let r := ParseUint rest
    if r.2 = some NumError.ErrSyntax then
      (0, r.2)
    else
      let cutoff : Nat := 2 ^ 63
      if ¬ neg ∧ r.1 ≥ cutoff then
        ((cutoff : Int) - 1, some NumError.ErrRange)
      else if neg ∧ r.1 > cutoff then
        (-(cutoff : Int), some NumError.ErrRange)
      else
        (if neg then -(r.1 : Int) else (r.1 : Int), none)

/-- `strconv.Atoi(s)`, which is `ParseInt(s, 10, 0)` converted to `int`. -/
def Atoi (s : String) : Int × Option NumError := ParseInt s.data

end strconv

/-! ## The handlers -/

/-- The function `enableCORS` (lines 21-25). -/
def enableCORS (w : ResponseWriter) : ResponseWriter :=
  let w1 := w.Set "Access-Control-Allow-Origin" "*"
  let w2 := w1.Set "Access-Control-Allow-Methods" "GET, POST, PUT, DELETE, OPTIONS"
  w2.Set "Access-Control-Allow-Headers" "Content-Type"

/-- The handler `GetUsers` (lines 73-76). -/
def GetUsers (w : ResponseWriter) (users : Slice User) : ResponseWriter × Slice User :=
  let w1 := w.Set "Content-Type" "application/json"
  (json.Encode w1 (json.ofUsers users), users)

/-- The handler `CreateUser` (lines 79-100). -/
def CreateUser (Decode : String → Option User) (w : ResponseWriter) (r : Request)
    (users : Slice User) : ResponseWriter × Slice User :=
  let w1 := w.Set "Content-Type" "application/json"
  match Decode r.Body with
  | none => (http.Error w1 "Invalid JSON body" http.StatusBadRequest, users)
  | some user =>
    if user.Name = "" ∨ user.Age ≤ 0 then
      (http.Error w1 "Invalid user data" http.StatusBadRequest, users)
    else
      let users1 := users.append [user]
      let w2 := w1.WriteHeader http.StatusCreated
      (json.Encode w2 (json.ofReply "success" user), users1)

/-- A field assignment through an index, `users[i].F = v`, given as the change `f` of the
element at index `i`. -/
def Slice.modify (users : Slice User) (i : Nat) (f : User → User) : Slice User :=
  match users with
  | Slice.nil => Slice.nil
  | Slice.of xs => Slice.of (List.modify f i xs)

/-- The handler `UpdateUser` (lines 103-128). -/
def UpdateUser (Decode : String → Option User) (w : ResponseWriter) (r : Request) (id : Int)
    (users : Slice User) : ResponseWriter × Slice User :=
  if h : id < 0 ∨ id ≥ users.len then
    (http.Error w "User not found" http.StatusNotFound, users)
  else
    match Decode r.Body with
    | none => (http.Error w "Invalid JSON body" http.StatusBadRequest, users)
    | some payload =>
      if payload.Name = "" ∨ payload.Age ≤ 0 then
        (http.Error w "Invalid user data" http.StatusBadRequest, users)
      else
        let i := id.toNat
        let users1 := users.modify i (fun u => { u with Name := payload.Name })
        let users2 := users1.modify i (fun u => { u with Age := payload.Age })
        let w1 := w.Set "Content-Type" "application/json"
        let updated := users2.toList.get ⟨i, by
          show id.toNat < ((users.modify id.toNat _).modify id.toNat _).toList.length
          cases users <;> simp [Slice.modify, Slice.toList, Slice.len] at h ⊢ <;> omega⟩
        (json.Encode w1 (json.ofReply "success" updated), users2)

/-- The handler `DeleteUser` (lines 131-145). -/
def DeleteUser (w : ResponseWriter) (id : Int) (users : Slice User) :
    ResponseWriter × Slice User :=
  if h : id < 0 ∨ id ≥ users.len then
    (http.Error w "User not found" http.StatusNotFound, users)
  else
    let i := id.toNat
    let deletedUser := users.toList.get ⟨i, by unfold Slice.len at h; omega⟩
    let users1 := (users.upTo i).append (users.since (i + 1)).toList
    let w1 := w.Set "Content-Type" "application/json"
    (json.Encode w1 (json.ofReply "success" deletedUser), users1)

/-- The router `UsersHandler` (lines 30-66). -/
def UsersHandler (Decode : String → Option User) (w : ResponseWriter) (r : Request)
    (users : Slice User) : ResponseWriter × Slice User :=
  let w1 := enableCORS w
  if r.Method = http.MethodOptions then
    (w1, users)
  else if r.Path = "/users" then
    if r.Method = http.MethodGet then
      GetUsers w1 users
    else if r.Method = http.MethodPost then
      CreateUser Decode w1 r users
    else
      (http.Error w1 "Method Not Allowed" http.StatusMethodNotAllowed, users)
  else
    let idStr := strings.TrimPrefix r.Path "/users/"
    let res := strconv.Atoi idStr
    if res.2 ≠ none then
      (http.Error w1 "Invalid user ID" http.StatusBadRequest, users)
    else if r.Method = http.MethodPut then
      UpdateUser Decode w1 r res.1 users
    else if r.Method = http.MethodDelete then
      DeleteUser w1 res.1 users
    else
      (http.Error w1 "Method Not Allowed" http.StatusMethodNotAllowed, users)

/-- The texts with an optional sign followed by one or more decimal digits. -/
def isSignedDecimal (t : List Char) : Bool :=
  match t with
  | [] => false
  | c :: cs =>
    let ds := if c = '+' ∨ c = '-' then cs else c :: cs
    !ds.isEmpty && ds.all (fun d => decide ('0' ≤ d ∧ d ≤ '9'))

/-- The stored-record invariant: every record has a non-empty name and a positive age. -/
def Valid (users : Slice User) : Prop :=
  ∀ u ∈ users.toList, u.Name ≠ "" ∧ 0 < u.Age

/-- The collection after a sequence of requests, each served with a fresh writer. -/
def serveAll (Decode : String → Option User) (reqs : List Request) (users : Slice User) :
    Slice User :=
  reqs.foldl (fun s r => (UsersHandler Decode ResponseWriter.fresh r s).2) users

/-! ## The server started by `main` -/

namespace http

/-- `http.NotFound(w, r)`, the reply of the mux to a path without a handler. -/
def NotFound (w : ResponseWriter) : ResponseWriter :=
  Error w "404 page not found" StatusNotFound

/-- The elements of a path between its slashes. -/
def splitSlash : List Char → List (List Char)
  | [] => [[]]
  | c :: cs =>
    match splitSlash cs with
    | [] => [[]]
    | seg :: rest => if c = '/' then [] :: seg :: rest else (c :: seg) :: rest

/-- `path.Clean(p)` for a rooted path: empty and "." elements are dropped, a ".." element
drops the element before it (or nothing at the root), and the rest is joined by single
slashes under the root. -/
def pathClean (p : List Char) : List Char :=
  let keep := (splitSlash p).foldl
    (fun stack e =>
      if e = [] ∨ e = ['.'] then stack
      else if e = ['.', '.'] then stack.dropLast
      else stack ++ [e]) []
  '/' :: List.intercalate ['/'] keep

/-- The function `cleanPath` of the mux: the canonical form of a request path, which keeps
a trailing slash. -/
def cleanPath (p : String) : String :=
  if p = "" then "/"
  else
    let p1 := if p.data.head? = some '/' then p.data else '/' :: p.data
    let np := pathClean p1
    if p1.getLast? = some '/' ∧ np ≠ ['/'] then ⟨np ++ ['/']⟩ else ⟨np⟩

/-- The pattern match of the mux: a pattern equal to the path, or else a registered subtree
pattern, one ending in a slash, that the path begins with. -/
def muxMatch (patterns : List String) (path : String) : Bool :=
  patterns.any (fun pat => decide (pat = path)) ||
    patterns.any (fun pat => decide (pat.data.getLast? = some '/') &&
      pat.data.isPrefixOf path.data)

end http

/-- The patterns under which `main` registers `UsersHandler` on the default mux
(lines 151-152). -/
def registered : List String := ["/users", "/users/"]

/-- Who answers a request received by `http.ListenAndServe(":8080", nil)`. -/
inductive Target where
  | usersHandler : Target
  | notFound : Target
  | redirect (path : String) : Target
  | globalOptions : Target
deriving DecidableEq, Repr

/-- The choice the server and its default mux make for a request, with the registrations
of `main`: the request `OPTIONS *` is answered by the server itself; a path that is not in
its canonical form is redirected to it (except for CONNECT); otherwise the patterns
decide, and a path that matches none gets the not-found handler. -/
def dispatch (r : Request) : Target :=
  if r.Path = "*" ∧ r.Method = http.MethodOptions then Target.globalOptions
  else if r.Method ≠ "CONNECT" ∧ http.cleanPath r.Path ≠ r.Path then
    Target.redirect (http.cleanPath r.Path)
  else if http.muxMatch registered r.Path then Target.usersHandler
  else Target.notFound

/-- What one request to the running program results in: a reply written through a response
writer together with the collection left behind, or a redirect (301 Moved Permanently) to
a path, issued by the mux with the collection untouched. -/
inductive Outcome where
  | replied (w : ResponseWriter) (users : Slice User) : Outcome
  | redirected (path : String) (users : Slice User) : Outcome

/-- The program as started by `main` (lines 150-156), on one request. -/
def serve (Decode : String → Option User) (r : Request) (users : Slice User) : Outcome :=
  match dispatch r with
  | Target.usersHandler =>
    Outcome.replied (UsersHandler Decode ResponseWriter.fresh r users).1
      (UsersHandler Decode ResponseWriter.fresh r users).2
  | Target.notFound => Outcome.replied (http.NotFound ResponseWriter.fresh) users
  | Target.redirect path => Outcome.redirected path users
  | Target.globalOptions =>
    Outcome.replied (ResponseWriter.fresh.Set "Content-Length" "0") users

end ApiServer

namespace ApiServer

/-! ## Facts about slices and the response writer -/

@[simp] theorem toList_of (xs : List User) : (Slice.of xs).toList = xs := rfl

@[simp] theorem toList_nil : (Slice.nil : Slice User).toList = [] := rfl

@[simp] theorem len_of (xs : List User) : (Slice.of xs).len = (xs.length : Int) := rfl

@[simp] theorem Set_status (w : ResponseWriter) (k v : String) : (w.Set k v).status = w.status := rfl

@[simp] theorem Set_body (w : ResponseWriter) (k v : String) : (w.Set k v).body = w.body := rfl

@[simp] theorem Del_status (w : ResponseWriter) (k : String) : (w.Del k).status = w.status := rfl

@[simp] theorem Del_body (w : ResponseWriter) (k : String) : (w.Del k).body = w.body := rfl

@[simp] theorem enableCORS_status (w : ResponseWriter) : (enableCORS w).status = w.status := rfl

@[simp] theorem enableCORS_body (w : ResponseWriter) : (enableCORS w).body = w.body := rfl

theorem WriteHeader_of_none {w : ResponseWriter} (h : w.status = none) (c : Nat) :
    w.WriteHeader c = { w with status := some c } := by
  simp [ResponseWriter.WriteHeader, h]

theorem WriteHeader_of_some {w : ResponseWriter} {c0 : Nat} (h : w.status = some c0) (c : Nat) :
    w.WriteHeader c = w := by
  simp [ResponseWriter.WriteHeader, h]

/-- An error reply on a writer without a status: the status is the given code and the
message is the one chunk added to the body. -/
theorem Error_reply {w : ResponseWriter} (h : w.status = none) (msg : String) (c : Nat) :
    (http.Error w msg c).code = c ∧ (http.Error w msg c).status = some c ∧
      (http.Error w msg c).body = w.body ++ [Chunk.text msg] := by
  simp [http.Error, ResponseWriter.Write, ResponseWriter.WriteHeader, ResponseWriter.code, h]

/-- A JSON reply on a writer without a status goes out with status 200. -/
theorem Encode_reply {w : ResponseWriter} (h : w.status = none) (doc : JSON) :
    (json.Encode w doc).code = 200 ∧ (json.Encode w doc).body = w.body ++ [Chunk.json doc] := by
  simp [json.Encode, ResponseWriter.Write, ResponseWriter.WriteHeader, ResponseWriter.code, h]

/-- A JSON reply after an explicit `WriteHeader` keeps that status. -/
theorem Encode_after_WriteHeader {w : ResponseWriter} (h : w.status = none) (c : Nat)
    (doc : JSON) :
    (json.Encode (w.WriteHeader c) doc).code = c ∧
      (json.Encode (w.WriteHeader c) doc).body = w.body ++ [Chunk.json doc] := by
  simp [json.Encode, ResponseWriter.Write, ResponseWriter.WriteHeader, ResponseWriter.code, h]

/-- The encoding of a user determines the user. -/
theorem ofUser_injective {u v : User} (h : json.ofUser u = json.ofUser v) : u = v := by
  cases u; cases v
  simp [json.ofUser] at h
  simp [h]

/-! ## Create -/

/-- What `CreateUser` does with a body that decodes to a valid user. -/
theorem CreateUser_valid (Decode : String → Option User) (w : ResponseWriter) (r : Request)
    (s : Slice User) (u : User) (hd : Decode r.Body = some u) (hn : u.Name ≠ "")
    (ha : 0 < u.Age) :
    CreateUser Decode w r s =
      (json.Encode ((w.Set "Content-Type" "application/json").WriteHeader 201)
        (json.ofReply "success" u), Slice.of (s.toList ++ [u])) := by
  have ha2 : ¬ u.Age ≤ 0 := by omega
  cases s <;> simp [CreateUser, hd, hn, ha2, Slice.append, Slice.toList, http.StatusCreated]

/-- C1: a POST /users whose body decodes to a user with a non-empty name and a positive
age is answered 201 with status "success" and the user as data, and the collection becomes
the old one with the user appended at the tail: one record longer, every old index
unchanged, the user at the old length, which is the last element the next List returns. -/
theorem C1_create_appends (Decode : String → Option User) (w : ResponseWriter) (r : Request)
    (s : Slice User) (u : User) (hw : w.status = none) (hd : Decode r.Body = some u)
    (hn : u.Name ≠ "") (ha : 0 < u.Age) :
    (CreateUser Decode w r s).1.code = 201 ∧
    (CreateUser Decode w r s).1.body = w.body ++
      [Chunk.json (JSON.obj [("data", json.ofUser u), ("status", JSON.str "success")])] ∧
    (CreateUser Decode w r s).2 = Slice.of (s.toList ++ [u]) ∧
    (CreateUser Decode w r s).2.len = s.len + 1 ∧
    (∀ i : Nat, i < s.toList.length →
      (CreateUser Decode w r s).2.toList[i]? = s.toList[i]?) ∧
    (CreateUser Decode w r s).2.toList[s.toList.length]? = some u ∧
    (GetUsers ResponseWriter.fresh (CreateUser Decode w r s).2).1.body =
      [Chunk.json (JSON.arr (s.toList.map json.ofUser ++ [json.ofUser u]))] ∧
    (r.Method = "POST" → r.Path = "/users" →
      UsersHandler Decode w r s = CreateUser Decode (enableCORS w) r s) := by
  rw [CreateUser_valid Decode w r s u hd hn ha]
  have hw1 : (w.Set "Content-Type" "application/json").status = none := by simpa using hw
  obtain ⟨h1, h2⟩ := Encode_after_WriteHeader hw1 201 (json.ofReply "success" u)
  refine ⟨h1, ?_, rfl, ?_, ?_, ?_, ?_, ?_⟩
  · simpa [json.ofReply] using h2
  · simp [Slice.len]
  · intro i hi
    simp [List.getElem?_append_left hi]
  · simp
  · simp [GetUsers, json.Encode, ResponseWriter.Write, ResponseWriter.WriteHeader,
      ResponseWriter.fresh, ResponseWriter.Set, json.ofUsers]
  · intro hm hp
    simp [UsersHandler, hm, hp, http.MethodOptions, http.MethodGet, http.MethodPost]

/-- C1 at a concrete request: the first user posted to the fresh, nil collection. -/
theorem C1_create_appends_witness :
    (ResponseWriter.fresh.status = none ∧
      (fun _ : String => some (User.mk "Ann" 30)) "" = some (User.mk "Ann" 30) ∧
      (User.mk "Ann" 30).Name ≠ "" ∧ 0 < (User.mk "Ann" 30).Age) ∧
    (CreateUser (fun _ => some (User.mk "Ann" 30)) ResponseWriter.fresh
      (Request.mk "POST" "/users" "") Slice.nil).1.code = 201 ∧
    (CreateUser (fun _ => some (User.mk "Ann" 30)) ResponseWriter.fresh
      (Request.mk "POST" "/users" "") Slice.nil).2 = Slice.of [User.mk "Ann" 30] :=
  have h := C1_create_appends (fun _ => some (User.mk "Ann" 30)) ResponseWriter.fresh
    (Request.mk "POST" "/users" "") Slice.nil (User.mk "Ann" 30) rfl rfl (by decide) (by decide)
  ⟨⟨rfl, rfl, by decide, by decide⟩, h.1, h.2.2.1⟩

end ApiServer

namespace ApiServer

/-! ## Update -/

/-- Overwriting both fields of the element at an index in range stores the payload there. -/
theorem modify_both (xs : List User) (i : Nat) (p : User) :
    List.modify (fun u => { u with Age := p.Age }) i
      (List.modify (fun u => { u with Name := p.Name }) i xs) =
    List.modify (fun _ => p) i xs := by
  induction xs generalizing i with
  | nil => cases i <;> rfl
  | cons x xs ih =>
    cases i with
    | zero => rfl
    | succ n => simp [ih]

/-- Replacing the element at an index is an assignment to that index. -/
theorem modify_const (xs : List User) (i : Nat) (p : User) :
    List.modify (fun _ => p) i xs = xs.set i p := by
  induction xs generalizing i with
  | nil => cases i <;> rfl
  | cons x xs ih =>
    cases i with
    | zero => rfl
    | succ n => simp [ih]

/-- What `UpdateUser` does with an index in range and a body that decodes to a valid payload. -/
theorem UpdateUser_valid (Decode : String → Option User) (w : ResponseWriter) (r : Request)
    (id : Int) (s : Slice User) (p : User) (h0 : 0 ≤ id) (h1 : id < s.len)
    (hd : Decode r.Body = some p) (hn : p.Name ≠ "") (ha : 0 < p.Age) :
    UpdateUser Decode w r id s =
      (json.Encode (w.Set "Content-Type" "application/json") (json.ofReply "success" p),
        Slice.of (s.toList.set id.toNat p)) := by
  have ha2 : ¬ p.Age ≤ 0 := by omega
  cases s with
  | nil => simp [Slice.len] at h1; omega
  | of xs =>
    have hr : ¬ (id < 0 ∨ id ≥ (Slice.of xs).len) := by simp at h1 ⊢; omega
    have hlen : id.toNat < xs.length := by simp at h1; omega
    simp only [UpdateUser, dif_neg hr, hd, hn, ha2, or_self, if_false, Slice.modify,
      modify_both, modify_const, toList_of]
    simp [hlen]

/-- C2: a PUT /users/{id} with an index in range and a body that decodes to a payload with
a non-empty name and a positive age is answered 200 with status "success" and the payload
as data; the collection keeps its length, holds the payload's name and age at that index,
and is unchanged at every other index. -/
theorem C2_update_in_place (Decode : String → Option User) (w : ResponseWriter) (r : Request)
    (id : Int) (s : Slice User) (p : User) (hw : w.status = none) (h0 : 0 ≤ id)
    (h1 : id < s.len) (hd : Decode r.Body = some p) (hn : p.Name ≠ "") (ha : 0 < p.Age) :
    (UpdateUser Decode w r id s).1.code = 200 ∧
    (UpdateUser Decode w r id s).1.body = w.body ++
      [Chunk.json (JSON.obj [("data", json.ofUser p), ("status", JSON.str "success")])] ∧
    (UpdateUser Decode w r id s).2.len = s.len ∧
    (∃ v, (UpdateUser Decode w r id s).2.toList[id.toNat]? = some v ∧
      v.Name = p.Name ∧ v.Age = p.Age) ∧
    (∀ j : Nat, j ≠ id.toNat →
      (UpdateUser Decode w r id s).2.toList[j]? = s.toList[j]?) ∧
    (r.Method = "PUT" → r.Path ≠ "/users" →
      strconv.Atoi (strings.TrimPrefix r.Path "/users/") = (id, none) →
      UsersHandler Decode w r s = UpdateUser Decode (enableCORS w) r id s) := by
  rw [UpdateUser_valid Decode w r id s p h0 h1 hd hn ha]
  have hw1 : (w.Set "Content-Type" "application/json").status = none := by simpa using hw
  obtain ⟨e1, e2⟩ := Encode_reply hw1 (json.ofReply "success" p)
  have hlen : id.toNat < s.toList.length := by unfold Slice.len at h1; omega
  refine ⟨e1, ?_, ?_, ⟨p, ?_, rfl, rfl⟩, ?_, ?_⟩
  · simpa [json.ofReply] using e2
  · simp [Slice.len]
  · simp [hlen]
  · intro j hj
    simp [List.getElem?_set_ne (Ne.symm hj)]
  · intro hm hp ht
    simp [UsersHandler, hm, hp, ht, http.MethodOptions, http.MethodPut]

/-- C2 at a concrete request: the one stored user is replaced through PUT /users/0. -/
theorem C2_update_in_place_witness :
    (ResponseWriter.fresh.status = none ∧ (0 : Int) ≤ 0 ∧
      (0 : Int) < (Slice.of [User.mk "Ann" 30]).len ∧
      (fun _ : String => some (User.mk "Ann" 31)) "" = some (User.mk "Ann" 31) ∧
      (User.mk "Ann" 31).Name ≠ "" ∧ 0 < (User.mk "Ann" 31).Age) ∧
    (UpdateUser (fun _ => some (User.mk "Ann" 31)) ResponseWriter.fresh
      (Request.mk "PUT" "/users/0" "") 0 (Slice.of [User.mk "Ann" 30])).1.code = 200 ∧
    (UpdateUser (fun _ => some (User.mk "Ann" 31)) ResponseWriter.fresh
      (Request.mk "PUT" "/users/0" "") 0 (Slice.of [User.mk "Ann" 30])).2.len =
      (Slice.of [User.mk "Ann" 30]).len :=
  have h := C2_update_in_place (fun _ => some (User.mk "Ann" 31)) ResponseWriter.fresh
    (Request.mk "PUT" "/users/0" "") 0 (Slice.of [User.mk "Ann" 30]) (User.mk "Ann" 31)
    rfl (by decide) (by decide) rfl (by decide) (by decide)
  ⟨⟨rfl, by decide, by decide, rfl, by decide, by decide⟩, h.1, h.2.2.1⟩

/-! ## Delete -/

/-- Cutting an index out of a slice in range: `append(s[:i], s[i+1:]...)` is the list with
that index erased, as a non-nil slice. -/
theorem splice_eq_eraseIdx (s : Slice User) (i : Nat) (h : i < s.toList.length) :
    (s.upTo i).append (s.since (i + 1)).toList = Slice.of (s.toList.eraseIdx i) := by
  cases s with
  | nil => simp at h
  | of xs => simp [Slice.upTo, Slice.since, Slice.append, List.eraseIdx_eq_take_drop_succ]

/-- What `DeleteUser` does with an index in range. -/
theorem DeleteUser_valid (w : ResponseWriter) (id : Int) (s : Slice User) (d : User)
    (h0 : 0 ≤ id) (h1 : id < s.len) (hd : s.toList[id.toNat]? = some d) :
    DeleteUser w id s =
      (json.Encode (w.Set "Content-Type" "application/json") (json.ofReply "success" d),
        Slice.of (s.toList.eraseIdx id.toNat)) := by
  have hr : ¬ (id < 0 ∨ id ≥ s.len) := by omega
  have hlen : id.toNat < s.toList.length := by unfold Slice.len at h1; omega
  have hget : s.toList.get ⟨id.toNat, hlen⟩ = d := by
    rw [List.getElem?_eq_getElem hlen] at hd
    simpa using hd
  simp only [DeleteUser, dif_neg hr, splice_eq_eraseIdx s id.toNat hlen, hget]

/-- C3: a DELETE /users/{id} with an index in range is answered 200 with status "success"
and the record that was at that index as data, and removes exactly that record: the
collection is one shorter, unchanged below the index, and every record that was above the
index is one position lower. -/
theorem C3_delete_shifts (w : ResponseWriter) (id : Int) (s : Slice User)
    (hw : w.status = none) (h0 : 0 ≤ id) (h1 : id < s.len) :
    (DeleteUser w id s).1.code = 200 ∧
    (∃ d, s.toList[id.toNat]? = some d ∧
      (DeleteUser w id s).1.body = w.body ++
        [Chunk.json (JSON.obj [("data", json.ofUser d), ("status", JSON.str "success")])]) ∧
    (DeleteUser w id s).2.len = s.len - 1 ∧
    (∀ j : Nat, j < id.toNat → (DeleteUser w id s).2.toList[j]? = s.toList[j]?) ∧
    (∀ j : Nat, id.toNat < j → (DeleteUser w id s).2.toList[j - 1]? = s.toList[j]?) ∧
    (∀ (Decode : String → Option User) (r : Request), r.Method = "DELETE" →
      r.Path ≠ "/users" →
      strconv.Atoi (strings.TrimPrefix r.Path "/users/") = (id, none) →
      UsersHandler Decode w r s = DeleteUser (enableCORS w) id s) := by
  have hlen : id.toNat < s.toList.length := by unfold Slice.len at h1; omega
  obtain ⟨d, hd⟩ : ∃ d, s.toList[id.toNat]? = some d :=
    ⟨s.toList[id.toNat], List.getElem?_eq_getElem hlen⟩
  rw [DeleteUser_valid w id s d h0 h1 hd]
  have hw1 : (w.Set "Content-Type" "application/json").status = none := by simpa using hw
  obtain ⟨e1, e2⟩ := Encode_reply hw1 (json.ofReply "success" d)
  refine ⟨e1, ⟨d, hd, ?_⟩, ?_, ?_, ?_, ?_⟩
  · simpa [json.ofReply] using e2
  · have hl := List.length_eraseIdx_of_lt hlen
    simp only [Slice.len, toList_of, hl]
    omega
  · intro j hj
    simp [List.getElem?_eraseIdx_of_lt _ _ _ hj]
  · intro j hj
    have hge : id.toNat ≤ j - 1 := by omega
    have hj1 : j - 1 + 1 = j := by omega
    simp [List.getElem?_eraseIdx_of_ge _ _ _ hge, hj1]
  · intro Decode r hm hp ht
    simp [UsersHandler, hm, hp, ht, http.MethodOptions, http.MethodPut, http.MethodDelete]

/-- C3 at a concrete request: with two users stored, DELETE /users/0 leaves the second. -/
theorem C3_delete_shifts_witness :
    (ResponseWriter.fresh.status = none ∧ (0 : Int) ≤ 0 ∧
      (0 : Int) < (Slice.of [User.mk "Ann" 30, User.mk "Bob" 41]).len) ∧
    (DeleteUser ResponseWriter.fresh 0 (Slice.of [User.mk "Ann" 30, User.mk "Bob" 41])).1.code
      = 200 ∧
    (DeleteUser ResponseWriter.fresh 0 (Slice.of [User.mk "Ann" 30, User.mk "Bob" 41])).2.len
      = (Slice.of [User.mk "Ann" 30, User.mk "Bob" 41]).len - 1 :=
  have h := C3_delete_shifts ResponseWriter.fresh 0
    (Slice.of [User.mk "Ann" 30, User.mk "Bob" 41]) rfl (by decide) (by decide)
  ⟨⟨rfl, by decide, by decide⟩, h.1, h.2.2.1⟩

/-! ## Rejected requests -/

/-- `CreateUser` on a body that does not decode. -/
theorem CreateUser_undecodable (Decode : String → Option User) (w : ResponseWriter)
    (r : Request) (s : Slice User) (hd : Decode r.Body = none) :
    CreateUser Decode w r s =
      (http.Error (w.Set "Content-Type" "application/json") "Invalid JSON body" 400, s) := by
  simp [CreateUser, hd, http.StatusBadRequest]

/-- `CreateUser` on a body that decodes to a user with an empty name or a non-positive age. -/
theorem CreateUser_invalid (Decode : String → Option User) (w : ResponseWriter)
    (r : Request) (s : Slice User) (u : User) (hd : Decode r.Body = some u)
    (hu : u.Name = "" ∨ u.Age ≤ 0) :
    CreateUser Decode w r s =
      (http.Error (w.Set "Content-Type" "application/json") "Invalid user data" 400, s) := by
  simp [CreateUser, hd, hu, http.StatusBadRequest]

/-- `UpdateUser` with an index outside the collection, whatever the body. -/
theorem UpdateUser_out_of_range (Decode : String → Option User) (w : ResponseWriter)
    (r : Request) (id : Int) (s : Slice User) (h : id < 0 ∨ s.len ≤ id) :
    UpdateUser Decode w r id s = (http.Error w "User not found" 404, s) := by
  have hr : id < 0 ∨ id ≥ s.len := h
  simp [UpdateUser, dif_pos hr, http.StatusNotFound]

/-- `UpdateUser` with an index in range on a body that does not decode. -/
theorem UpdateUser_undecodable (Decode : String → Option User) (w : ResponseWriter)
    (r : Request) (id : Int) (s : Slice User) (h0 : 0 ≤ id) (h1 : id < s.len)
    (hd : Decode r.Body = none) :
    UpdateUser Decode w r id s = (http.Error w "Invalid JSON body" 400, s) := by
  have hr : ¬ (id < 0 ∨ id ≥ s.len) := by omega
  simp [UpdateUser, dif_neg hr, hd, http.StatusBadRequest]

/-- `UpdateUser` with an index in range on a payload with an empty name or a non-positive
age. -/
theorem UpdateUser_invalid (Decode : String → Option User) (w : ResponseWriter)
    (r : Request) (id : Int) (s : Slice User) (p : User) (h0 : 0 ≤ id) (h1 : id < s.len)
    (hd : Decode r.Body = some p) (hp : p.Name = "" ∨ p.Age ≤ 0) :
    UpdateUser Decode w r id s = (http.Error w "Invalid user data" 400, s) := by
  have hr : ¬ (id < 0 ∨ id ≥ s.len) := by omega
  simp [UpdateUser, dif_neg hr, hd, hp, http.StatusBadRequest]

/-- `DeleteUser` with an index outside the collection. -/
theorem DeleteUser_out_of_range (w : ResponseWriter) (id : Int) (s : Slice User)
    (h : id < 0 ∨ s.len ≤ id) :
    DeleteUser w id s = (http.Error w "User not found" 404, s) := by
  have hr : id < 0 ∨ id ≥ s.len := h
  simp [DeleteUser, dif_pos hr, http.StatusNotFound]

/-- C5: when the body does not decode, or decodes to a user with an empty name or an age
that is not positive, POST /users and PUT /users/{id} for every index in range answer 400
(with "Invalid JSON body", respectively "Invalid user data") and return the collection they
were given, so no field of any record is overwritten. -/
theorem C5_invalid_payload_rejected (Decode : String → Option User) (w : ResponseWriter)
    (r : Request) (s : Slice User) (hw : w.status = none)
    (hbad : Decode r.Body = none ∨
      ∃ u, Decode r.Body = some u ∧ (u.Name = "" ∨ u.Age ≤ 0)) :
    ((CreateUser Decode w r s).1.code = 400 ∧ (CreateUser Decode w r s).2 = s) ∧
    (∀ id : Int, 0 ≤ id → id < s.len →
      (UpdateUser Decode w r id s).1.code = 400 ∧ (UpdateUser Decode w r id s).2 = s) ∧
    (Decode r.Body = none →
      (CreateUser Decode w r s).1.body = w.body ++ [Chunk.text "Invalid JSON body"] ∧
      ∀ id : Int, 0 ≤ id → id < s.len →
        (UpdateUser Decode w r id s).1.body = w.body ++ [Chunk.text "Invalid JSON body"]) ∧
    (Decode r.Body ≠ none →
      (CreateUser Decode w r s).1.body = w.body ++ [Chunk.text "Invalid user data"] ∧
      ∀ id : Int, 0 ≤ id → id < s.len →
        (UpdateUser Decode w r id s).1.body = w.body ++ [Chunk.text "Invalid user data"]) := by
  have hw1 : (w.Set "Content-Type" "application/json").status = none := by simpa using hw
  rcases hbad with hd | ⟨u, hd, hu⟩
  · rw [CreateUser_undecodable Decode w r s hd]
    refine ⟨⟨(Error_reply hw1 _ _).1, rfl⟩, ?_, ?_, ?_⟩
    · intro id h0 h1
      rw [UpdateUser_undecodable Decode w r id s h0 h1 hd]
      exact ⟨(Error_reply hw _ _).1, rfl⟩
    · intro _
      refine ⟨by simpa using (Error_reply hw1 "Invalid JSON body" 400).2.2, ?_⟩
      intro id h0 h1
      rw [UpdateUser_undecodable Decode w r id s h0 h1 hd]
      exact (Error_reply hw _ _).2.2
    · intro hne
      exact absurd hd hne
  · rw [CreateUser_invalid Decode w r s u hd hu]
    refine ⟨⟨(Error_reply hw1 _ _).1, rfl⟩, ?_, ?_, ?_⟩
    · intro id h0 h1
      rw [UpdateUser_invalid Decode w r id s u h0 h1 hd hu]
      exact ⟨(Error_reply hw _ _).1, rfl⟩
    · intro hnone
      rw [hnone] at hd
      cases hd
    · intro _
      refine ⟨by simpa using (Error_reply hw1 "Invalid user data" 400).2.2, ?_⟩
      intro id h0 h1
      rw [UpdateUser_invalid Decode w r id s u h0 h1 hd hu]
      exact (Error_reply hw _ _).2.2

/-- C5 at a concrete request: a payload with an empty name against one stored user. -/
theorem C5_invalid_payload_rejected_witness :
    (ResponseWriter.fresh.status = none ∧
      ((fun _ : String => some (User.mk "" 5)) "" = none ∨
        ∃ u, (fun _ : String => some (User.mk "" 5)) "" = some u ∧
          (u.Name = "" ∨ u.Age ≤ 0))) ∧
    (CreateUser (fun _ => some (User.mk "" 5)) ResponseWriter.fresh
      (Request.mk "POST" "/users" "") (Slice.of [User.mk "Ann" 30])).1.code = 400 ∧
    (CreateUser (fun _ => some (User.mk "" 5)) ResponseWriter.fresh
      (Request.mk "POST" "/users" "") (Slice.of [User.mk "Ann" 30])).2 =
      Slice.of [User.mk "Ann" 30] :=
  have hb : (fun _ : String => some (User.mk "" 5)) "" = none ∨
      ∃ u, (fun _ : String => some (User.mk "" 5)) "" = some u ∧ (u.Name = "" ∨ u.Age ≤ 0) :=
    Or.inr ⟨User.mk "" 5, rfl, Or.inl rfl⟩
  have h := C5_invalid_payload_rejected (fun _ => some (User.mk "" 5)) ResponseWriter.fresh
    (Request.mk "POST" "/users" "") (Slice.of [User.mk "Ann" 30]) rfl hb
  ⟨⟨rfl, hb⟩, h.1.1, h.1.2⟩

/-- The replies of `UpdateUser` and `DeleteUser` to an index outside the collection. -/
theorem out_of_range_replies (Decode : String → Option User) (w : ResponseWriter)
    (r : Request) (id : Int) (s : Slice User) (hw : w.status = none)
    (hid : id < 0 ∨ s.len ≤ id) :
    ((UpdateUser Decode w r id s).1.code = 404 ∧
      (UpdateUser Decode w r id s).1.body = w.body ++ [Chunk.text "User not found"] ∧
      (UpdateUser Decode w r id s).2 = s) ∧
    ((DeleteUser w id s).1.code = 404 ∧
      (DeleteUser w id s).1.body = w.body ++ [Chunk.text "User not found"] ∧
      (DeleteUser w id s).2 = s) := by
  rw [UpdateUser_out_of_range Decode w r id s hid, DeleteUser_out_of_range w id s hid]
  obtain ⟨e1, _, e3⟩ := Error_reply hw "User not found" 404
  exact ⟨⟨e1, e3, rfl⟩, ⟨e1, e3, rfl⟩⟩

/-- C6: for an index that is negative or not below the length of the collection,
`UpdateUser` and `DeleteUser` answer 404 "User not found" and return the collection they
were given; for `UpdateUser` nothing is assumed about the body. -/
theorem C6_out_of_range_not_found (Decode : String → Option User) (w : ResponseWriter)
    (r : Request) (id : Int) (s : Slice User) (hw : w.status = none)
    (hid : id < 0 ∨ s.len ≤ id) :
    ((UpdateUser Decode w r id s).1.code = 404 ∧
      (UpdateUser Decode w r id s).1.body = w.body ++ [Chunk.text "User not found"] ∧
      (UpdateUser Decode w r id s).2 = s) ∧
    ((DeleteUser w id s).1.code = 404 ∧
      (DeleteUser w id s).1.body = w.body ++ [Chunk.text "User not found"] ∧
      (DeleteUser w id s).2 = s) := by
  exact out_of_range_replies Decode w r id s hw hid

/-- C6 at a concrete request: index 5 against one stored user, with a valid body. -/
theorem C6_out_of_range_not_found_witness :
    (ResponseWriter.fresh.status = none ∧
      ((5 : Int) < 0 ∨ (Slice.of [User.mk "Ann" 30]).len ≤ 5)) ∧
    (UpdateUser (fun _ => some (User.mk "Ann" 31)) ResponseWriter.fresh
      (Request.mk "PUT" "/users/5" "") 5 (Slice.of [User.mk "Ann" 30])).1.code = 404 ∧
    (DeleteUser ResponseWriter.fresh 5 (Slice.of [User.mk "Ann" 30])).2 =
      Slice.of [User.mk "Ann" 30] :=
  have h := C6_out_of_range_not_found (fun _ => some (User.mk "Ann" 31)) ResponseWriter.fresh
    (Request.mk "PUT" "/users/5" "") 5 (Slice.of [User.mk "Ann" 30]) rfl
    (Or.inr (by decide))
  ⟨⟨rfl, Or.inr (by decide)⟩, h.1.1, h.2.2.2⟩

/-! ## List -/

/-- `GetUsers` on a non-nil slice: status 200, the array of the records in stored order, and
the collection as it was. -/
theorem GetUsers_of (w : ResponseWriter) (xs : List User) (hw : w.status = none) :
    (GetUsers w (Slice.of xs)).1.code = 200 ∧
    (GetUsers w (Slice.of xs)).1.body = w.body ++ [Chunk.json (JSON.arr (xs.map json.ofUser))] ∧
    (GetUsers w (Slice.of xs)).2 = Slice.of xs := by
  have hw1 : (w.Set "Content-Type" "application/json").status = none := by simpa using hw
  obtain ⟨e1, e2⟩ := Encode_reply hw1 (json.ofUsers (Slice.of xs))
  exact ⟨e1, by simpa [json.ofUsers] using e2, rfl⟩

/-- C7, the code at the failing input: GET /users on the collection of a fresh process,
which is the nil slice, is answered 200 with the JSON document `null`, which is not the
empty array; after one POST and one DELETE the collection is empty again but non-nil, and
the same request is answered with the empty array. -/
theorem C7_list_of_fresh_collection_is_null :
    (UsersHandler (fun _ => some (User.mk "Ann" 30)) ResponseWriter.fresh
      (Request.mk "GET" "/users" "") Slice.nil).1.code = 200 ∧
    (UsersHandler (fun _ => some (User.mk "Ann" 30)) ResponseWriter.fresh
      (Request.mk "GET" "/users" "") Slice.nil).1.body = [Chunk.json JSON.null] ∧
    JSON.null ≠ JSON.arr [] ∧
    (UsersHandler (fun _ => some (User.mk "Ann" 30)) ResponseWriter.fresh
      (Request.mk "GET" "/users" "") Slice.nil).2 = Slice.nil ∧
    serveAll (fun _ => some (User.mk "Ann" 30))
      [Request.mk "POST" "/users" "", Request.mk "DELETE" "/users/0" ""] Slice.nil =
      Slice.of [] ∧
    (UsersHandler (fun _ => some (User.mk "Ann" 30)) ResponseWriter.fresh
      (Request.mk "GET" "/users" "") (Slice.of [])).1.body = [Chunk.json (JSON.arr [])] := by
  refine ⟨by decide, rfl, by simp, rfl, by decide, rfl⟩

/-! ## Routing -/

/-- Trimming a prefix that is there leaves the rest. -/
theorem TrimPrefix_append (pre t : String) : strings.TrimPrefix (pre ++ t) pre = t := by
  simp [strings.TrimPrefix, List.drop_left]

/-- A path with an identifier segment is not the collection path. -/
theorem item_path_ne (t : String) : "/users/" ++ t ≠ "/users" := by
  intro h
  have h2 := congrArg String.length h
  simp [String.length_append] at h2
  have h3 : "/users/".length = 7 := by decide
  have h4 : "/users".length = 6 := by decide
  omega

/-- The reply to a method the route does not serve. -/
theorem not_allowed_reply (w : ResponseWriter) (hw : w.status = none) :
    (http.Error (enableCORS w) "Method Not Allowed" 405).code = 405 ∧
    (http.Error (enableCORS w) "Method Not Allowed" 405).body =
      w.body ++ [Chunk.text "Method Not Allowed"] := by
  have hw1 : (enableCORS w).status = none := by simpa using hw
  obtain ⟨e1, _, e3⟩ := Error_reply hw1 "Method Not Allowed" 405
  exact ⟨e1, by simpa using e3⟩

/-- C9: a request that is not OPTIONS gets 405 "Method Not Allowed" and leaves the
collection as it was when its path is /users and its method is neither GET nor POST, and
when its path is /users/{id} with an identifier that parses and its method is neither PUT
nor DELETE. -/
theorem C9_method_not_allowed (Decode : String → Option User) (r : Request) (s : Slice User)
    (hopt : r.Method ≠ "OPTIONS") :
    (r.Path = "/users" → r.Method ≠ "GET" → r.Method ≠ "POST" →
      (UsersHandler Decode ResponseWriter.fresh r s).1.code = 405 ∧
      (UsersHandler Decode ResponseWriter.fresh r s).1.body =
        [Chunk.text "Method Not Allowed"] ∧
      (UsersHandler Decode ResponseWriter.fresh r s).2 = s) ∧
    (∀ t : String, r.Path = "/users/" ++ t → (strconv.Atoi t).2 = none →
      r.Method ≠ "PUT" → r.Method ≠ "DELETE" →
      (UsersHandler Decode ResponseWriter.fresh r s).1.code = 405 ∧
      (UsersHandler Decode ResponseWriter.fresh r s).1.body =
        [Chunk.text "Method Not Allowed"] ∧
      (UsersHandler Decode ResponseWriter.fresh r s).2 = s) ∧
    (r.Path ≠ "/users" → (strconv.Atoi (strings.TrimPrefix r.Path "/users/")).2 = none →
      r.Method ≠ "PUT" → r.Method ≠ "DELETE" →
      (UsersHandler Decode ResponseWriter.fresh r s).1.code = 405 ∧
      (UsersHandler Decode ResponseWriter.fresh r s).1.body =
        [Chunk.text "Method Not Allowed"] ∧
      (UsersHandler Decode ResponseWriter.fresh r s).2 = s) := by
  obtain ⟨e1, e2⟩ := not_allowed_reply ResponseWriter.fresh rfl
  have hgen : r.Path ≠ "/users" →
      (strconv.Atoi (strings.TrimPrefix r.Path "/users/")).2 = none →
      r.Method ≠ "PUT" → r.Method ≠ "DELETE" →
      UsersHandler Decode ResponseWriter.fresh r s =
        (http.Error (enableCORS ResponseWriter.fresh) "Method Not Allowed" 405, s) := by
    intro hp ha hput hdel
    simp [UsersHandler, hopt, hp, ha, hput, hdel, http.MethodOptions, http.MethodPut,
      http.MethodDelete, http.StatusMethodNotAllowed]
  refine ⟨?_, ?_, ?_⟩
  · intro hp hget hpost
    have h : UsersHandler Decode ResponseWriter.fresh r s =
        (http.Error (enableCORS ResponseWriter.fresh) "Method Not Allowed" 405, s) := by
      simp [UsersHandler, hopt, hp, hget, hpost, http.MethodOptions, http.MethodGet,
        http.MethodPost, http.StatusMethodNotAllowed]
    rw [h]
    exact ⟨e1, e2, rfl⟩
  · intro t hp ha hput hdel
    have hne : r.Path ≠ "/users" := by rw [hp]; exact item_path_ne t
    have htrim : strings.TrimPrefix r.Path "/users/" = t := by
      rw [hp]; exact TrimPrefix_append "/users/" t
    rw [hgen hne (by rw [htrim]; exact ha) hput hdel]
    exact ⟨e1, e2, rfl⟩
  · intro hp ha hput hdel
    rw [hgen hp ha hput hdel]
    exact ⟨e1, e2, rfl⟩

/-- C9 at a concrete request: GET /users/0 while user 0 exists. -/
theorem C9_method_not_allowed_witness :
    (Request.mk "GET" "/users/0" "").Method ≠ "OPTIONS" ∧
    (UsersHandler (fun _ => none) ResponseWriter.fresh (Request.mk "GET" "/users/0" "")
      (Slice.of [User.mk "Ann" 30])).1.code = 405 ∧
    (UsersHandler (fun _ => none) ResponseWriter.fresh (Request.mk "GET" "/users/0" "")
      (Slice.of [User.mk "Ann" 30])).2 = Slice.of [User.mk "Ann" 30] :=
  have h := (C9_method_not_allowed (fun _ => none) (Request.mk "GET" "/users/0" "")
    (Slice.of [User.mk "Ann" 30]) (by decide)).2.1 "0" (by decide) (by decide) (by decide)
    (by decide)
  ⟨by decide, h.1, h.2.2⟩

/-- The three CORS headers on a writer that had none. -/
theorem enableCORS_fresh_headers :
    (enableCORS ResponseWriter.fresh).Get "Access-Control-Allow-Origin" = some "*" ∧
    (enableCORS ResponseWriter.fresh).Get "Access-Control-Allow-Methods" =
      some "GET, POST, PUT, DELETE, OPTIONS" ∧
    (enableCORS ResponseWriter.fresh).Get "Access-Control-Allow-Headers" =
      some "Content-Type" := by
  refine ⟨by decide, by decide, by decide⟩

/-- An OPTIONS request whose path is /users, or begins with "/users/" and is in canonical
form, is given to `UsersHandler` by the server. -/
theorem dispatch_options_routed (r : Request) (hopt : r.Method = "OPTIONS")
    (hroute : r.Path = "/users" ∨
      ("/users/".data.isPrefixOf r.Path.data = true ∧ http.cleanPath r.Path = r.Path)) :
    dispatch r = Target.usersHandler := by
  obtain ⟨m, path, body⟩ := r
  simp only at hopt hroute
  subst hopt
  rcases hroute with hp | ⟨hpre, hclean⟩
  · subst hp
    have hstar : ("/users" : String) ≠ "*" := by decide
    have hclean : http.cleanPath "/users" = "/users" := by decide
    have hmatch : http.muxMatch registered "/users" = true := by decide
    simp [dispatch, hstar, hclean, hmatch]
  · have hstar : path ≠ "*" := by
      intro h
      subst h
      exact absurd hpre (by decide)
    have hlast : "/users/".data.getLast? = some '/' := by decide
    simp [dispatch, hstar, hclean, http.muxMatch, registered, hpre, hlast]

/-- The claim of C10 fails for a path outside the registrations of `main`: OPTIONS /other is
answered by the not-found handler of the mux, with status 404, the text
"404 page not found" and none of the three CORS headers; `UsersHandler` is not run. -/
theorem C10_options_unrouted_path_not_found :
    dispatch (Request.mk "OPTIONS" "/other" "") = Target.notFound ∧
    serve (fun _ => none) (Request.mk "OPTIONS" "/other" "") (Slice.of [User.mk "Ann" 30]) =
      Outcome.replied (http.NotFound ResponseWriter.fresh) (Slice.of [User.mk "Ann" 30]) ∧
    (http.NotFound ResponseWriter.fresh).code = 404 ∧
    (http.NotFound ResponseWriter.fresh).code ≠ 200 ∧
    (http.NotFound ResponseWriter.fresh).body = [Chunk.text "404 page not found"] ∧
    (http.NotFound ResponseWriter.fresh).Get "Access-Control-Allow-Origin" = none ∧
    (http.NotFound ResponseWriter.fresh).Get "Access-Control-Allow-Methods" = none ∧
    (http.NotFound ResponseWriter.fresh).Get "Access-Control-Allow-Headers" = none := by
  have hd : dispatch (Request.mk "OPTIONS" "/other" "") = Target.notFound := by decide
  refine ⟨hd, ?_, by decide, by decide, rfl, by decide, by decide, by decide⟩
  simp [serve, hd]

/-- C10, amended: a request with method OPTIONS whose path the server routes to
`UsersHandler`, that is the path /users or a path in canonical form that begins with
"/users/" (whatever follows: an identifier in range, one out of range, or text that does
not parse), is answered, whatever its body, by the router itself: no status is written, so
the client receives the default 200, the body is empty, the three CORS headers are set, and
the collection is the one that was given. -/
theorem C10_options_preflight (Decode : String → Option User) (r : Request) (s : Slice User)
    (hopt : r.Method = "OPTIONS")
    (hroute : r.Path = "/users" ∨
      ("/users/".data.isPrefixOf r.Path.data = true ∧ http.cleanPath r.Path = r.Path)) :
    ∃ w : ResponseWriter, serve Decode r s = Outcome.replied w s ∧
      UsersHandler Decode ResponseWriter.fresh r s = (w, s) ∧
      w = enableCORS ResponseWriter.fresh ∧
      w.status = none ∧ w.code = 200 ∧ w.body = [] ∧
      w.Get "Access-Control-Allow-Origin" = some "*" ∧
      w.Get "Access-Control-Allow-Methods" = some "GET, POST, PUT, DELETE, OPTIONS" ∧
      w.Get "Access-Control-Allow-Headers" = some "Content-Type" := by
  have h : UsersHandler Decode ResponseWriter.fresh r s =
      (enableCORS ResponseWriter.fresh, s) := by
    simp [UsersHandler, hopt, http.MethodOptions]
  have hs : serve Decode r s = Outcome.replied (enableCORS ResponseWriter.fresh) s := by
    simp only [serve, dispatch_options_routed r hopt hroute, h]
  obtain ⟨g1, g2, g3⟩ := enableCORS_fresh_headers
  exact ⟨enableCORS ResponseWriter.fresh, hs, h, rfl, rfl, rfl, rfl, g1, g2, g3⟩

/-- C10 as amended, at a concrete request: OPTIONS on a path under "/users/" whose
identifier does not parse. -/
theorem C10_options_preflight_witness :
    ((Request.mk "OPTIONS" "/users/abc" "x").Method = "OPTIONS" ∧
      ((Request.mk "OPTIONS" "/users/abc" "x").Path = "/users" ∨
        ("/users/".data.isPrefixOf (Request.mk "OPTIONS" "/users/abc" "x").Path.data = true ∧
          http.cleanPath (Request.mk "OPTIONS" "/users/abc" "x").Path =
            (Request.mk "OPTIONS" "/users/abc" "x").Path))) ∧
    ∃ w : ResponseWriter,
      serve (fun _ => none) (Request.mk "OPTIONS" "/users/abc" "x")
        (Slice.of [User.mk "Ann" 30]) = Outcome.replied w (Slice.of [User.mk "Ann" 30]) ∧
      w.code = 200 ∧ w.body = [] :=
  have hr : (Request.mk "OPTIONS" "/users/abc" "x").Path = "/users" ∨
      ("/users/".data.isPrefixOf (Request.mk "OPTIONS" "/users/abc" "x").Path.data = true ∧
        http.cleanPath (Request.mk "OPTIONS" "/users/abc" "x").Path =
          (Request.mk "OPTIONS" "/users/abc" "x").Path) :=
    Or.inr ⟨by decide, by decide⟩
  have h := C10_options_preflight (fun _ => none) (Request.mk "OPTIONS" "/users/abc" "x")
    (Slice.of [User.mk "Ann" 30]) rfl hr
  ⟨⟨rfl, hr⟩, h.elim (fun w hw => ⟨w, hw.1, hw.2.2.2.2.1, hw.2.2.2.2.2.1⟩)⟩

/-! ## Identifier parsing -/

/-- One round of the digit loop of `ParseUint`. -/
theorem parseUintLoop_cons (c : Char) (cs : List Char) (n : Nat) :
    strconv.parseUintLoop (c :: cs) n =
      if '0' ≤ c ∧ c ≤ '9' then
        if n ≥ (2 ^ 64 - 1) / 10 + 1 then (2 ^ 64 - 1, some strconv.NumError.ErrRange)
        else if ((n * 10) % 2 ^ 64 + (c.toNat - '0'.toNat)) % 2 ^ 64 < (n * 10) % 2 ^ 64 ∨
            ((n * 10) % 2 ^ 64 + (c.toNat - '0'.toNat)) % 2 ^ 64 > 2 ^ 64 - 1 then
          (2 ^ 64 - 1, some strconv.NumError.ErrRange)
        else
          strconv.parseUintLoop cs (((n * 10) % 2 ^ 64 + (c.toNat - '0'.toNat)) % 2 ^ 64)
      else (0, some strconv.NumError.ErrSyntax) := rfl

/-- The digit loop of `ParseUint` ends without an error only on decimal digits. -/
theorem parseUintLoop_ok (cs : List Char) (n : Nat)
    (h : (strconv.parseUintLoop cs n).2 = none) :
    cs.all (fun d => decide ('0' ≤ d ∧ d ≤ '9')) = true := by
  induction cs generalizing n with
  | nil => rfl
  | cons c cs ih =>
    rw [parseUintLoop_cons] at h
    split at h
    · rename_i hc
      split at h
      · simp at h
      · split at h
        · simp at h
        · simp only [List.all_cons, hc, and_self, decide_True, Bool.true_and]
          exact ih _ h
    · simp at h

/-- A range error of the digit loop comes with the largest unsigned value. -/
theorem parseUintLoop_range (cs : List Char) (n : Nat)
    (h : (strconv.parseUintLoop cs n).2 = some strconv.NumError.ErrRange) :
    (strconv.parseUintLoop cs n).1 = 2 ^ 64 - 1 := by
  induction cs generalizing n with
  | nil => simp [strconv.parseUintLoop] at h
  | cons c cs ih =>
    rw [parseUintLoop_cons] at h ⊢
    split
    · split
      · rfl
      · split
        · rfl
        · rename_i hc h1 h2
          rw [if_pos hc, if_neg h1, if_neg h2] at h
          exact ih _ h
    · rename_i hc
      rw [if_neg hc] at h
      simp at h

/-- `ParseUint` succeeds only on a non-empty run of decimal digits. -/
theorem ParseUint_ok (cs : List Char) (h : (strconv.ParseUint cs).2 = none) :
    cs ≠ [] ∧ cs.all (fun d => decide ('0' ≤ d ∧ d ≤ '9')) = true := by
  unfold strconv.ParseUint at h
  by_cases he : cs = []
  · simp [he] at h
  · rw [if_neg he] at h
    exact ⟨he, parseUintLoop_ok cs 0 h⟩

/-- A range error of `ParseUint` comes with the largest unsigned value. -/
theorem ParseUint_range (cs : List Char)
    (h : (strconv.ParseUint cs).2 = some strconv.NumError.ErrRange) :
    (strconv.ParseUint cs).1 = 2 ^ 64 - 1 := by
  unfold strconv.ParseUint at h ⊢
  by_cases he : cs = []
  · simp [he] at h
  · rw [if_neg he] at h ⊢
    exact parseUintLoop_range cs 0 h

/-- The sign handling of `ParseInt` passes on every error of `ParseUint`. -/
theorem ParseInt_ok_unsigned (c : Char) (cs : List Char)
    (h : (strconv.ParseInt (c :: cs)).2 = none) :
    (strconv.ParseUint (if c = '+' then cs else if c = '-' then cs else c :: cs)).2 = none := by
  simp only [strconv.ParseInt] at h
  generalize hr : strconv.ParseUint (if c = '+' then cs else if c = '-' then cs else c :: cs)
    = res at h
  have hrange := ParseUint_range (if c = '+' then cs else if c = '-' then cs else c :: cs)
  rw [hr] at hrange
  obtain ⟨v, e⟩ := res
  cases e with
  | none => rfl
  | some err =>
    cases err with
    | ErrSyntax => simp at h
    | ErrRange =>
      have hv : v = 2 ^ 64 - 1 := hrange rfl
      subst hv
      by_cases hneg : c = '-' <;> simp [hneg] at h

/-- `ParseInt` succeeds only on an optionally signed run of decimal digits. -/
theorem ParseInt_ok (t : List Char) (h : (strconv.ParseInt t).2 = none) :
    isSignedDecimal t = true := by
  cases t with
  | nil => simp [strconv.ParseInt] at h
  | cons c cs =>
    obtain ⟨hne, hall⟩ := ParseUint_ok _ (ParseInt_ok_unsigned c cs h)
    unfold isSignedDecimal
    by_cases hplus : c = '+'
    · simp only [hplus, if_true] at hne hall
      cases cs with
      | nil => exact absurd rfl hne
      | cons d ds => simpa [hplus] using hall
    · by_cases hminus : c = '-'
      · simp only [hminus, if_true] at hne hall
        cases cs with
        | nil => exact absurd rfl hne
        | cons d ds => simpa [hminus] using hall
      · simp only [hplus, hminus, if_false] at hall
        simpa [hplus, hminus] using hall

/-- The claim of C8 fails for a negative identifier: in the path made of "/users/" and
"-1" the text after the prefix is "-1", which `strconv.Atoi` parses to the integer minus
one without an error, so PUT and DELETE
reach `UpdateUser` and `DeleteUser` with a negative identifier, and the reply is 404
"User not found", not 400 "Invalid user ID". -/
theorem C8_negative_id_reaches_handlers :
    strings.TrimPrefix "/users/-1" "/users/" = "-1" ∧
    strconv.Atoi "-1" = (-1, none) ∧
    UsersHandler (fun _ => none) ResponseWriter.fresh (Request.mk "PUT" "/users/-1" "")
        (Slice.of [User.mk "Ann" 30]) =
      UpdateUser (fun _ => none) (enableCORS ResponseWriter.fresh)
        (Request.mk "PUT" "/users/-1" "") (-1) (Slice.of [User.mk "Ann" 30]) ∧
    (UsersHandler (fun _ => none) ResponseWriter.fresh (Request.mk "PUT" "/users/-1" "")
      (Slice.of [User.mk "Ann" 30])).1.code = 404 ∧
    (UsersHandler (fun _ => none) ResponseWriter.fresh (Request.mk "PUT" "/users/-1" "")
      (Slice.of [User.mk "Ann" 30])).1.code ≠ 400 ∧
    (UsersHandler (fun _ => none) ResponseWriter.fresh (Request.mk "PUT" "/users/-1" "")
      (Slice.of [User.mk "Ann" 30])).1.body = [Chunk.text "User not found"] ∧
    UsersHandler (fun _ => none) ResponseWriter.fresh (Request.mk "DELETE" "/users/-1" "")
        (Slice.of [User.mk "Ann" 30]) =
      DeleteUser (enableCORS ResponseWriter.fresh) (-1) (Slice.of [User.mk "Ann" 30]) ∧
    (UsersHandler (fun _ => none) ResponseWriter.fresh (Request.mk "DELETE" "/users/-1" "")
      (Slice.of [User.mk "Ann" 30])).1.code = 404 ∧
    (UsersHandler (fun _ => none) ResponseWriter.fresh (Request.mk "DELETE" "/users/-1" "")
      (Slice.of [User.mk "Ann" 30])).1.body = [Chunk.text "User not found"] := by
  refine ⟨by decide, by decide, rfl, by decide, by decide, rfl, rfl, by decide, rfl⟩

/-- C8, amended: for a request that is not OPTIONS and whose path is not /users, the router
passes the path without its "/users/" prefix to `strconv.Atoi`. A text that is not an
optional sign followed by decimal digits (the empty text, "abc", "1/2") makes `Atoi` fail,
and whenever `Atoi` fails the reply is 400 "Invalid user ID" and the collection is the one
that was given. When `Atoi` returns an identifier, PUT is served by `UpdateUser` and DELETE
by `DeleteUser` with that identifier; it can be negative, and then both answer 404
"User not found" and leave the collection as it was. -/
theorem C8_unparseable_id_rejected (Decode : String → Option User) (r : Request)
    (s : Slice User) (hopt : r.Method ≠ "OPTIONS") (hpath : r.Path ≠ "/users") :
    (isSignedDecimal (strings.TrimPrefix r.Path "/users/").data = false →
      (strconv.Atoi (strings.TrimPrefix r.Path "/users/")).2 ≠ none) ∧
    (isSignedDecimal [] = false ∧ isSignedDecimal "abc".data = false ∧
      isSignedDecimal "1/2".data = false ∧ isSignedDecimal "-1".data = true) ∧
    ((strconv.Atoi (strings.TrimPrefix r.Path "/users/")).2 ≠ none →
      UsersHandler Decode ResponseWriter.fresh r s =
        (http.Error (enableCORS ResponseWriter.fresh) "Invalid user ID" 400, s) ∧
      (UsersHandler Decode ResponseWriter.fresh r s).1.code = 400 ∧
      (UsersHandler Decode ResponseWriter.fresh r s).1.body = [Chunk.text "Invalid user ID"] ∧
      (UsersHandler Decode ResponseWriter.fresh r s).2 = s) ∧
    (∀ id : Int, strconv.Atoi (strings.TrimPrefix r.Path "/users/") = (id, none) →
      (r.Method = "PUT" → UsersHandler Decode ResponseWriter.fresh r s =
        UpdateUser Decode (enableCORS ResponseWriter.fresh) r id s) ∧
      (r.Method = "DELETE" → UsersHandler Decode ResponseWriter.fresh r s =
        DeleteUser (enableCORS ResponseWriter.fresh) id s) ∧
      (id < 0 → r.Method = "PUT" ∨ r.Method = "DELETE" →
        (UsersHandler Decode ResponseWriter.fresh r s).1.code = 404 ∧
        (UsersHandler Decode ResponseWriter.fresh r s).1.body =
          [Chunk.text "User not found"] ∧
        (UsersHandler Decode ResponseWriter.fresh r s).2 = s)) := by
  have hcors : (enableCORS ResponseWriter.fresh).status = none := rfl
  have hput : ∀ id : Int, strconv.Atoi (strings.TrimPrefix r.Path "/users/") = (id, none) →
      r.Method = "PUT" → UsersHandler Decode ResponseWriter.fresh r s =
        UpdateUser Decode (enableCORS ResponseWriter.fresh) r id s := by
    intro id ha hm
    simp [UsersHandler, hpath, ha, hm, http.MethodOptions, http.MethodPut]
  have hdel : ∀ id : Int, strconv.Atoi (strings.TrimPrefix r.Path "/users/") = (id, none) →
      r.Method = "DELETE" → UsersHandler Decode ResponseWriter.fresh r s =
        DeleteUser (enableCORS ResponseWriter.fresh) id s := by
    intro id ha hm
    simp [UsersHandler, hpath, ha, hm, http.MethodOptions, http.MethodPut, http.MethodDelete]
  refine ⟨?_, ⟨by decide, by decide, by decide, by decide⟩, ?_, ?_⟩
  · intro hnot hok
    have := ParseInt_ok _ hok
    rw [hnot] at this
    cases this
  · intro herr
    have h : UsersHandler Decode ResponseWriter.fresh r s =
        (http.Error (enableCORS ResponseWriter.fresh) "Invalid user ID" 400, s) := by
      simp [UsersHandler, hopt, hpath, herr, http.MethodOptions, http.StatusBadRequest]
    obtain ⟨e1, _, e3⟩ := Error_reply hcors "Invalid user ID" 400
    rw [h]
    exact ⟨rfl, e1, e3, rfl⟩
  · intro id ha
    refine ⟨hput id ha, hdel id ha, ?_⟩
    intro hneg hm
    obtain ⟨⟨u1, u2, u3⟩, ⟨d1, d2, d3⟩⟩ :=
      out_of_range_replies Decode (enableCORS ResponseWriter.fresh) r id s hcors (Or.inl hneg)
    rcases hm with hm | hm
    · rw [hput id ha hm]
      exact ⟨u1, u2, u3⟩
    · rw [hdel id ha hm]
      exact ⟨d1, d2, d3⟩

/-- C8 as amended, at concrete requests: PUT /users/abc is answered 400. -/
theorem C8_unparseable_id_rejected_witness :
    ((Request.mk "PUT" "/users/abc" "").Method ≠ "OPTIONS" ∧
      (Request.mk "PUT" "/users/abc" "").Path ≠ "/users") ∧
    (UsersHandler (fun _ => none) ResponseWriter.fresh (Request.mk "PUT" "/users/abc" "")
      (Slice.of [User.mk "Ann" 30])).1.code = 400 ∧
    (UsersHandler (fun _ => none) ResponseWriter.fresh (Request.mk "PUT" "/users/abc" "")
      (Slice.of [User.mk "Ann" 30])).2 = Slice.of [User.mk "Ann" 30] :=
  have h := (C8_unparseable_id_rejected (fun _ => none) (Request.mk "PUT" "/users/abc" "")
    (Slice.of [User.mk "Ann" 30]) (by decide) (by decide)).2.2.1 (by decide)
  ⟨⟨by decide, by decide⟩, h.2.1, h.2.2.2⟩

/-! ## The stored-record invariant -/

/-- `CreateUser` keeps the invariant: it stores nothing or a checked record. -/
theorem CreateUser_keeps_valid (Decode : String → Option User) (w : ResponseWriter)
    (r : Request) (s : Slice User) (hs : Valid s) : Valid (CreateUser Decode w r s).2 := by
  cases hd : Decode r.Body with
  | none => rw [CreateUser_undecodable Decode w r s hd]; exact hs
  | some u =>
    by_cases hu : u.Name = "" ∨ u.Age ≤ 0
    · rw [CreateUser_invalid Decode w r s u hd hu]; exact hs
    · have hn : u.Name ≠ "" := fun h => hu (Or.inl h)
      have ha : 0 < u.Age := by
        by_contra hc
        exact hu (Or.inr (by omega))
      rw [CreateUser_valid Decode w r s u hd hn ha]
      intro v hv
      simp only [toList_of, List.mem_append, List.mem_singleton] at hv
      rcases hv with hv | hv
      · exact hs v hv
      · rw [hv]; exact ⟨hn, ha⟩

/-- `UpdateUser` keeps the invariant: it stores nothing or a checked payload. -/
theorem UpdateUser_keeps_valid (Decode : String → Option User) (w : ResponseWriter)
    (r : Request) (id : Int) (s : Slice User) (hs : Valid s) :
    Valid (UpdateUser Decode w r id s).2 := by
  by_cases hr : id < 0 ∨ s.len ≤ id
  · rw [UpdateUser_out_of_range Decode w r id s hr]; exact hs
  · have h0 : 0 ≤ id := by omega
    have h1 : id < s.len := by omega
    cases hd : Decode r.Body with
    | none => rw [UpdateUser_undecodable Decode w r id s h0 h1 hd]; exact hs
    | some p =>
      by_cases hp : p.Name = "" ∨ p.Age ≤ 0
      · rw [UpdateUser_invalid Decode w r id s p h0 h1 hd hp]; exact hs
      · have hn : p.Name ≠ "" := fun h => hp (Or.inl h)
        have ha : 0 < p.Age := by
          by_contra hc
          exact hp (Or.inr (by omega))
        rw [UpdateUser_valid Decode w r id s p h0 h1 hd hn ha]
        intro v hv
        rcases List.mem_or_eq_of_mem_set hv with hv | hv
        · exact hs v hv
        · rw [hv]; exact ⟨hn, ha⟩

/-- `DeleteUser` keeps the invariant: it only removes a record. -/
theorem DeleteUser_keeps_valid (w : ResponseWriter) (id : Int) (s : Slice User)
    (hs : Valid s) : Valid (DeleteUser w id s).2 := by
  by_cases hr : id < 0 ∨ s.len ≤ id
  · rw [DeleteUser_out_of_range w id s hr]; exact hs
  · have h0 : 0 ≤ id := by omega
    have h1 : id < s.len := by omega
    have hlen : id.toNat < s.toList.length := by unfold Slice.len at h1; omega
    rw [DeleteUser_valid w id s s.toList[id.toNat] h0 h1 (List.getElem?_eq_getElem hlen)]
    intro v hv
    exact hs v (List.mem_of_mem_eraseIdx hv)

/-- The router keeps the invariant, whatever the request. -/
theorem UsersHandler_keeps_valid (Decode : String → Option User) (w : ResponseWriter)
    (r : Request) (s : Slice User) (hs : Valid s) :
    Valid (UsersHandler Decode w r s).2 := by
  unfold UsersHandler
  simp only []
  split
  · exact hs
  · split
    · split
      · exact hs
      · split
        · exact CreateUser_keeps_valid Decode _ r s hs
        · exact hs
    · split
      · exact hs
      · split
        · exact UpdateUser_keeps_valid Decode _ r _ s hs
        · split
          · exact DeleteUser_keeps_valid _ _ s hs
          · exact hs

/-- The invariant holds after every sequence of requests that starts from a collection
with the invariant. -/
theorem serveAll_keeps_valid (Decode : String → Option User) (reqs : List Request)
    (s : Slice User) (hs : Valid s) : Valid (serveAll Decode reqs s) := by
  induction reqs generalizing s with
  | nil => exact hs
  | cons r rest ih =>
    exact ih _ (UsersHandler_keeps_valid Decode ResponseWriter.fresh r s hs)

/-- C4: starting from the nil collection of a fresh process, after every finite sequence of
requests served one at a time by the router, with any methods, paths and bodies and any
behaviour of the decoder, every stored record has a non-empty name and a positive age. -/
theorem C4_stored_records_valid (Decode : String → Option User) (reqs : List Request) :
    ∀ u ∈ (serveAll Decode reqs Slice.nil).toList, u.Name ≠ "" ∧ 0 < u.Age := by
  have h : Valid (serveAll Decode reqs Slice.nil) :=
    serveAll_keeps_valid Decode reqs Slice.nil (by intro u hu; simp at hu)
  exact h

/-- C4 at a concrete run: after one accepted POST the stored record is the posted one, and
it has a non-empty name and a positive age. -/
theorem C4_stored_records_valid_witness :
    User.mk "Ann" 30 ∈ (serveAll (fun _ => some (User.mk "Ann" 30))
      [Request.mk "POST" "/users" ""] Slice.nil).toList ∧
    ((User.mk "Ann" 30).Name ≠ "" ∧ 0 < (User.mk "Ann" 30).Age) :=
  have hm : User.mk "Ann" 30 ∈ (serveAll (fun _ => some (User.mk "Ann" 30))
      [Request.mk "POST" "/users" ""] Slice.nil).toList := by decide
  ⟨hm, C4_stored_records_valid (fun _ => some (User.mk "Ann" 30))
    [Request.mk "POST" "/users" ""] (User.mk "Ann" 30) hm⟩

end ApiServer
